import Mathlib

/-
  Verification of `src/src/utils/buildASTSchema.js` (the schema builder of the
  gql project).  The JavaScript source is shallowly embedded below: pure
  functions become Lean functions, the mutable `errors` array and the
  `innerTypeMap` cache become an explicit `BState` threaded through the
  builders, JavaScript exceptions (TypeError on `undefined` property access,
  `invariant` failures, explicit `throw`) become the `BFail` error monad, and
  the unbounded recursion of the JavaScript call stack is modelled with an
  explicit fuel parameter (`BFail.outOfFuel` marks a run that exceeds every
  finite stack depth).
-/

namespace GQL

/-! ### Diagnostics (GQLError)

The repository's `newGQLError` (src/utils/GQLError.js) is not under `src/`;
per the spec (section 6) a diagnostic is `{ message, locations, severity }`.
Messages are represented by a closed inductive, one constructor per
`newGQLError` call site in buildASTSchema.js, with `GQLMsg.text` giving the
literal strings of the source.  Locations are abstracted to the `id` fields
of the cited AST nodes (a `null` node list gives `none`). -/

inductive Severity
  | error
  | warning
deriving DecidableEq, Repr

inductive GQLMsg
  | multipleSchemaDefs
  | duplicateTypeName (name : String)
  | missingQueryRoot
  | typeNotFound (name : String)
  | astMustProvideObject
  | expectedInputType
  | expectedOutputType
  | expectedObjectType
  | expectedInterfaceType
deriving DecidableEq, Repr

/-- The literal message string of each diagnostic in buildASTSchema.js. -/
def GQLMsg.text : GQLMsg → String
  | .multipleSchemaDefs => "Must provide only one schema definition."
  | .duplicateTypeName n =>
      "Schema must contain unique named types but contains multiple types named \"" ++ n ++ "\"."
  | .missingQueryRoot => "Must provide schema definition with query type or a type named Query."
  | .typeNotFound n => "Type \"" ++ n ++ "\" not found."
  | .astMustProvideObject => "AST must provide object type."
  | .expectedInputType => "Expected Input type."
  | .expectedOutputType => "Expected Output type."
  | .expectedObjectType => "Expected Object type."
  | .expectedInterfaceType => "Expected Interface type."

structure GQLError where
  message : GQLMsg
  locations : Option (List Nat)
  severity : Severity
deriving DecidableEq, Repr

/-- Modelled from the spec: `newGQLError` (src/utils/GQLError.js, not under
`src/`) builds the diagnostic shape of spec section 6: message, the cited
source locations (none for a `null` node list), severity. -/
def newGQLError (message : GQLMsg) (locations : Option (List Nat)) (severity : Severity) :
    GQLError :=
  ⟨message, locations, severity⟩

/-! ### Lexer tokens and source locations (for getDescription) -/

inductive TokenKind
  | comment
  | other
deriving DecidableEq, Repr

/-- A lexer token: its kind, the source line it starts on, and its value
(the text of a comment). -/
structure Token where
  kind : TokenKind
  line : Nat
  value : String
deriving DecidableEq, Repr

/-- A node's `loc`: in graphql-js this carries `startToken`, whose `prev`
chain walks the doubly linked token stream backwards.  Here `prevTokens`
lists the tokens strictly before `startToken` in source order (so the walk
backwards traverses `prevTokens.reverse`; a token whose `prev` is null is the
head of `prevTokens`), and `startLine` is `startToken.line`. -/
structure Loc where
  prevTokens : List Token
  startLine : Nat
deriving DecidableEq, Repr

/-- The index loop of `leadingSpaces`: advance while the current character
is a space. -/
def countLeadingSpaces : List Char → Nat
  | [] => 0
  | c :: rest => if c = ' ' then countLeadingSpaces rest + 1 else 0

/-- buildASTSchema.js lines 553-562: count the spaces on the starting side
of a string. -/
def leadingSpaces (str : String) : Nat :=
  countLeadingSpaces str.data

/-- The `while` loop of `getDescription` (lines 531-546): walk the token
chain backwards (list in reverse source order) while the token is a comment,
has both neighbours, sits exactly one line above the token after it
(`token.line + 1 === token.next.line`) and on a different line from the token
before it (`token.line !== token.prev.line`).  `nextLine` is the line of the
previously visited token (initially of `startToken`).  Collects the comment
values in walk (reverse source) order. -/
def collectComments : List Token → Nat → List String
  | [], _ => []
  | [_], _ => []
  | t :: p :: rest, nextLine =>
    if t.kind = TokenKind.comment ∧ t.line + 1 = nextLine ∧ t.line ≠ p.line then
      t.value :: collectComments (p :: rest) t.line
    else
      []

/-- buildASTSchema.js lines 526-551 (`getDescription`): given an AST node,
return its description derived from the contiguous block of full-line
comments preceding it.  Takes the node's optional `loc`; returns `none` for
`null` (node without location). -/
def getDescription (loc : Option Loc) : Option String :=
  match loc with
  | none => none
  | some l =>
    let comments := collectComments l.prevTokens.reverse l.startLine
    let minSpaces := (comments.map leadingSpaces).min?
    some (String.intercalate "\n" (comments.reverse.map (fun c => c.drop (minSpaces.getD 0))))

/-! ### The input AST (graphql/language/ast)

Every node that can be cited by a diagnostic carries a numeric `id`
abstracting its identity/source position.  Nodes carry an optional `loc`
(used only by `getDescription`). -/

/-- A Name node: its string `value` plus an id for diagnostic locations. -/
structure NameNode where
  value : String
  id : Nat
deriving DecidableEq, Repr

/-- A type reference: `NamedType`, `ListType` or `NonNullType`. -/
inductive TypeNode
  | named (name : NameNode)
  | listType (ofType : TypeNode)
  | nonNullType (ofType : TypeNode)
deriving DecidableEq, Repr

/-- A GraphQL literal value, as far as the verified claims need it:
string literals (the only ones exercised by directive arguments here)
and an opaque `other`. -/
inductive GValue
  | str (s : String)
  | other
deriving DecidableEq, Repr

/-- A directive usage node (`DirectiveNode`): `@name(arg: value, ...)`. -/
structure DirectiveUsage where
  name : String
  args : List (String × GValue)
deriving DecidableEq, Repr

/-- An `InputValueDefinitionNode` (argument / input-object field). -/
structure InputValueDef where
  name : String
  type : TypeNode
  defaultValue : Option GValue
  loc : Option Loc
deriving DecidableEq, Repr

/-- A `FieldDefinitionNode`. -/
structure FieldDef where
  name : String
  type : TypeNode
  arguments : List InputValueDef
  directives : List DirectiveUsage
  loc : Option Loc
deriving DecidableEq, Repr

/-- An `EnumValueDefinitionNode`. -/
structure EnumValueDef where
  name : String
  directives : List DirectiveUsage
  loc : Option Loc
deriving DecidableEq, Repr

/-- A `TypeDefinitionNode`, one constructor per definition kind. -/
inductive TypeDef
  | scalarT (name : NameNode) (loc : Option Loc)
  | objectT (name : NameNode) (interfaces : List TypeNode) (fields : List FieldDef)
      (loc : Option Loc)
  | ifaceT (name : NameNode) (fields : List FieldDef) (loc : Option Loc)
  | unionT (name : NameNode) (types : List TypeNode) (loc : Option Loc)
  | enumT (name : NameNode) (values : List EnumValueDef) (loc : Option Loc)
  | inputObjectT (name : NameNode) (fields : List InputValueDef) (loc : Option Loc)
deriving DecidableEq, Repr

/-- The name node of a type definition. -/
def TypeDef.name : TypeDef → NameNode
  | .scalarT n _ => n
  | .objectT n _ _ _ => n
  | .ifaceT n _ _ => n
  | .unionT n _ _ => n
  | .enumT n _ _ => n
  | .inputObjectT n _ _ => n

/-- The `loc` of a type definition. -/
def TypeDef.loc : TypeDef → Option Loc
  | .scalarT _ l => l
  | .objectT _ _ _ l => l
  | .ifaceT _ _ l => l
  | .unionT _ _ l => l
  | .enumT _ _ l => l
  | .inputObjectT _ _ l => l

/-- One `{ operation: type }` entry of a schema definition block. -/
structure OperationTypeDef where
  operation : String
  typeName : String
deriving DecidableEq, Repr

/-- A `SchemaDefinitionNode` (`schema { query: Q ... }`). -/
structure SchemaDef where
  operationTypes : List OperationTypeDef
  id : Nat
deriving DecidableEq, Repr

/-- A `DirectiveDefinitionNode`. -/
structure DirectiveDefNode where
  name : NameNode
  locations : List String
  arguments : List InputValueDef
  loc : Option Loc
deriving DecidableEq, Repr

/-- A top-level definition of a document; `otherD` stands for the kinds the
`switch` of buildASTSchema ignores (its `default` branch). -/
inductive Definition
  | schemaD (sd : SchemaDef)
  | typeD (td : TypeDef)
  | directiveD (dd : DirectiveDefNode)
  | otherD
deriving DecidableEq, Repr

/-- A `DocumentNode` of kind DOCUMENT. -/
structure Document where
  definitions : List Definition
deriving DecidableEq, Repr

/-! ### Resolved types (graphql/type/definition)

`GType` is the closed tagged union of resolved types.  Objects, interfaces
and input objects appear as name-plus-description shells: in the source their
field maps are deferred thunks (`fields: () => ...`) that recompute from the
registered definition on first access; here those thunks are the functions
`makeFieldDefMapWith` / `makeInputValuesWith` applied to the same definition,
so nothing is lost by not storing them in the value.  Union member lists and
enum value maps are built eagerly in the source and are stored. -/

/-- The expected kind of a placeholder (spec section 3: "a sentinel
NamedType of a given expected kind"). -/
inductive PKind
  | inputType
  | outputType
  | objectType
  | interfaceType
deriving DecidableEq, Repr

/-- Eagerly built per-enum-value data (description and deprecation reason),
as assembled by `makeEnumDef` (lines 454-470). -/
structure EnumValueInfo where
  description : Option String
  deprecationReason : Option GValue
deriving DecidableEq, Repr

/-- A resolved GraphQL type. -/
inductive GType
  | scalar (name : String) (description : Option String)
  | object (name : String) (description : Option String)
  | iface (name : String) (description : Option String)
  | union (name : String) (description : Option String) (members : List GType)
  | enum (name : String) (description : Option String) (values : List (String × EnumValueInfo))
  | inputObject (name : String) (description : Option String)
  | list (ofType : GType)
  | nonNull (ofType : GType)
  | placeholder (kind : PKind)
deriving Repr

/-- `instanceof GraphQLNonNull`. -/
def isNonNullType : GType → Bool
  | .nonNull _ => true
  | _ => false

/-- `instanceof GraphQLList`. -/
def isListType : GType → Bool
  | .list _ => true
  | _ => false

/-- graphql-js `isInputType`: scalar, enum or input object, possibly
wrapped.  The input placeholder (a sentinel of input kind) qualifies. -/
def isInputType : GType → Bool
  | .scalar _ _ => true
  | .enum _ _ _ => true
  | .inputObject _ _ => true
  | .placeholder .inputType => true
  | .list t => isInputType t
  | .nonNull t => isInputType t
  | _ => false

/-- graphql-js `isOutputType`: scalar, object, interface, union or enum,
possibly wrapped.  Output, object and interface placeholders (sentinels of
those kinds) qualify. -/
def isOutputType : GType → Bool
  | .scalar _ _ => true
  | .object _ _ => true
  | .iface _ _ => true
  | .union _ _ _ => true
  | .enum _ _ _ => true
  | .placeholder .outputType => true
  | .placeholder .objectType => true
  | .placeholder .interfaceType => true
  | .list t => isOutputType t
  | .nonNull t => isOutputType t
  | _ => false

/-- `instanceof GraphQLObjectType`; the object placeholder is a sentinel of
object kind, hence an instance. -/
def isObjectInstance : GType → Bool
  | .object _ _ => true
  | .placeholder .objectType => true
  | _ => false

/-- `instanceof GraphQLInterfaceType`; the interface placeholder is a
sentinel of interface kind, hence an instance. -/
def isInterfaceInstance : GType → Bool
  | .iface _ _ => true
  | .placeholder .interfaceType => true
  | _ => false

/-! ### Directives (graphql/type/directives) and deprecation reasons -/

/-- The data `makeInputValues` (lines 427-441) computes per input value:
resolved type, description, and default value.  `valueFromAST` (an external
graphql-js helper) is modelled as keeping the literal default value. -/
structure InputInfo where
  type : GType
  description : Option String
  defaultValue : Option GValue
deriving Repr

/-- A `GraphQLDirective`: name, description, declared locations (opaque
strings), and argument definitions keyed by name. -/
structure GQLDirective where
  name : String
  description : Option String
  locations : List String
  args : List (String × InputInfo)
deriving Repr

/-- The built-in skip directive of graphql-js (external library value). -/
def GraphQLSkipDirective : GQLDirective :=
  { name := "skip"
    description := none
    locations := ["FIELD", "FRAGMENT_SPREAD", "INLINE_FRAGMENT"]
    args := [("if", ⟨.nonNull (.scalar "Boolean" none), none, none⟩)] }

/-- The built-in include directive of graphql-js (external library value). -/
def GraphQLIncludeDirective : GQLDirective :=
  { name := "include"
    description := none
    locations := ["FIELD", "FRAGMENT_SPREAD", "INLINE_FRAGMENT"]
    args := [("if", ⟨.nonNull (.scalar "Boolean" none), none, none⟩)] }

/-- The built-in deprecated directive of graphql-js (external library
value): one argument `reason : String` whose default value is the string
"No longer supported". -/
def GraphQLDeprecatedDirective : GQLDirective :=
  { name := "deprecated"
    description := none
    locations := ["FIELD_DEFINITION", "ENUM_VALUE"]
    args := [("reason", ⟨.scalar "String" none, none, some (.str "No longer supported")⟩)] }

/-- graphql-js `getArgumentValues` (external library,
graphql/execution/values), for the literal-argument cases exercised here:
each argument declared by the directive takes the value provided by the
usage node if present, else its declared default; an argument with neither
is omitted from the result. -/
def getArgumentValuesM (d : GQLDirective) (usage : DirectiveUsage) : List (String × GValue) :=
  d.args.filterMap (fun a =>
    match usage.args.lookup a.1 with
    | some v => some (a.1, v)
    | none => a.2.defaultValue.map (fun v => (a.1, v)))

/-- buildASTSchema.js lines 507-520 (`getDeprecationReason`): find a usage
named like `GraphQLDeprecatedDirective` (i.e. "deprecated") among the node's
directives and read the `reason` argument using the BUILT-IN deprecated
directive's argument definitions. -/
def getDeprecationReason (directives : Option (List DirectiveUsage)) : Option GValue :=
  match directives with
  | none => none
  | some ds =>
    match ds.find? (fun dir => dir.name = GraphQLDeprecatedDirective.name) with
    | none => none
    | some deprecatedAST => (getArgumentValuesM GraphQLDeprecatedDirective deprecatedAST).lookup "reason"

/-! ### Failures and build state

JavaScript failure modes of the source, none of which produce diagnostics:
`nullAccess` models a TypeError from reading a property of `undefined`,
`invariantViolation` an `invariant(...)` failure, `thrownError` an explicit
`throw new Error`, and `outOfFuel` marks that the run exceeds the given
recursion bound (the source has no bound: a run that is `outOfFuel` for
every fuel is an infinite recursion / stack overflow). -/

inductive BFail
  | outOfFuel
  | nullAccess
  | invariantViolation (msg : String)
  | thrownError (msg : String)
deriving DecidableEq, Repr

/-- The mutable context of one `buildASTSchema` call: the `innerTypeMap`
cache (seeded with the built-ins) and the `errors` array. -/
structure BState where
  innerTypeMap : List (String × GType)
  errors : List GQLError

/-- Push one error diagnostic (the `errors.push(newGQLError(...))` calls). -/
def pushErr (st : BState) (msg : GQLMsg) (locations : Option (List Nat)) : BState :=
  { st with errors := st.errors ++ [newGQLError msg locations Severity.error] }

/-- The initial `innerTypeMap` (lines 215-229): built-in scalars and
introspection types.  Introspection types are external library values; only
their names and rough kinds matter here. -/
def initialTypeMap : List (String × GType) :=
  [ ("String", .scalar "String" none)
  , ("Int", .scalar "Int" none)
  , ("Float", .scalar "Float" none)
  , ("Boolean", .scalar "Boolean" none)
  , ("ID", .scalar "ID" none)
  , ("__Schema", .object "__Schema" none)
  , ("__Directive", .object "__Directive" none)
  , ("__DirectiveLocation", .enum "__DirectiveLocation" none [])
  , ("__Type", .object "__Type" none)
  , ("__Field", .object "__Field" none)
  , ("__InputValue", .object "__InputValue" none)
  , ("__EnumValue", .object "__EnumValue" none)
  , ("__TypeKind", .enum "__TypeKind" none []) ]

/-- The five default scalars pushed into the schema's type list
(lines 234-240). -/
def defaultScalarTypes : List GType :=
  [.scalar "String" none, .scalar "Int" none, .scalar "Float" none,
   .scalar "Boolean" none, .scalar "ID" none]

/-- The node map: name of a type definition to its canonical (first seen)
definition. -/
structure Ctx where
  nodeMap : List (String × TypeDef)

/-! ### Type wrappers -/

/-- buildASTSchema.js lines 103-116 (`buildWrappedType`): rebuild the
list/non-null wrapper structure of the type AST around the resolved inner
type.  `invariant(!(wrappedType instanceof GraphQLNonNull))` becomes the
`invariantViolation` failure. -/
def buildWrappedType (innerType : GType) : TypeNode → Except BFail GType
  | .listType t =>
    match buildWrappedType innerType t with
    | .error e => .error e
    | .ok w => .ok (.list w)
  | .nonNullType t =>
    match buildWrappedType innerType t with
    | .error e => .error e
    | .ok w =>
      if isNonNullType w then .error (.invariantViolation "No nesting nonnull.")
      else .ok (.nonNull w)
  | .named _ => .ok innerType

/-- Modelled from the spec: `getNamedTypeNode` (src/utils/getNamedTypeNode.js,
not under `src/`) — spec section 4.3: "recursively strips list/non-null
modifiers to find the innermost name". -/
def getNamedTypeNode : TypeNode → NameNode
  | .named n => n
  | .listType t => getNamedTypeNode t
  | .nonNullType t => getNamedTypeNode t

/-- Modelled from the spec: `PLACEHOLDER_TYPES` (src/constants.js, not under
`src/`) — spec section 3: a Placeholder is "a sentinel NamedType of a given
expected kind, substituted when resolution fails". -/
def PLACEHOLDER_TYPES (k : PKind) : GType := .placeholder k

/-! ### Type production and kind-specific builders

The closures of buildASTSchema call each other through `typeDefNamed`.  Each
builder below is parameterised by `resolve`, the registry lookup it closes
over; `typeDefNamed fuel ctx` is the actual instance.  State (cache and
errors) is threaded explicitly. -/

/-- The registry lookup signature: type name, the id of the referencing node
(`none` when the source passes a non-AST value as the node), state. -/
def Resolve : Type :=
  String → Option Nat → BState → Except BFail (Option GType × BState)

/-- buildASTSchema.js lines 319-324 (`produceType`): strip to the innermost
named type node, resolve that name (substituting `defaultValue` for a null
result), and rebuild the wrappers. -/
def produceTypeWith (resolve : Resolve) (typeNode : TypeNode) (defaultValue : GType)
    (st : BState) : Except BFail (GType × BState) :=
  let namedTypeNode := getNamedTypeNode typeNode
  match resolve namedTypeNode.value (some namedTypeNode.id) st with
  | .error e => .error e
  | .ok (typeDef?, st') =>
    match buildWrappedType (typeDef?.getD defaultValue) typeNode with
    | .error e => .error e
    | .ok t => .ok (t, st')

/-- buildASTSchema.js lines 326-336 (`produceInputType`). -/
def produceInputTypeWith (resolve : Resolve) (typeNode : TypeNode) (st : BState) :
    Except BFail (GType × BState) :=
  match produceTypeWith resolve typeNode (PLACEHOLDER_TYPES .inputType) st with
  | .error e => .error e
  | .ok (t, st') =>
    if isInputType t then .ok (t, st')
    else .ok (t, pushErr st' .expectedInputType (some [(getNamedTypeNode typeNode).id]))

/-- buildASTSchema.js lines 338-348 (`produceOutputType`). -/
def produceOutputTypeWith (resolve : Resolve) (typeNode : TypeNode) (st : BState) :
    Except BFail (GType × BState) :=
  match produceTypeWith resolve typeNode (PLACEHOLDER_TYPES .outputType) st with
  | .error e => .error e
  | .ok (t, st') =>
    if isOutputType t then .ok (t, st')
    else .ok (t, pushErr st' .expectedOutputType (some [(getNamedTypeNode typeNode).id]))

/-- buildASTSchema.js lines 350-360 (`produceObjectType`). -/
def produceObjectTypeWith (resolve : Resolve) (typeNode : TypeNode) (st : BState) :
    Except BFail (GType × BState) :=
  match produceTypeWith resolve typeNode (PLACEHOLDER_TYPES .objectType) st with
  | .error e => .error e
  | .ok (t, st') =>
    if isObjectInstance t then .ok (t, st')
    else .ok (t, pushErr st' .expectedObjectType (some [(getNamedTypeNode typeNode).id]))

/-- buildASTSchema.js lines 362-372 (`produceInterfaceType`). -/
def produceInterfaceTypeWith (resolve : Resolve) (typeNode : TypeNode) (st : BState) :
    Except BFail (GType × BState) :=
  match produceTypeWith resolve typeNode (PLACEHOLDER_TYPES .interfaceType) st with
  | .error e => .error e
  | .ok (t, st') =>
    if isInterfaceInstance t then .ok (t, st')
    else .ok (t, pushErr st' .expectedInterfaceType (some [(getNamedTypeNode typeNode).id]))

/-- The eager member-list construction of `makeUnionDef` (line 477):
`def.types.map(t => produceObjectType(t))`. -/
def resolveUnionMembersWith (resolve : Resolve) :
    List TypeNode → BState → Except BFail (List GType × BState)
  | [], st => .ok ([], st)
  | t :: rest, st =>
    match produceObjectTypeWith resolve t st with
    | .error e => .error e
    | .ok (m, st') =>
      match resolveUnionMembersWith resolve rest st' with
      | .error e => .error e
      | .ok (ms, st'') => .ok (m :: ms, st'')

/-- buildASTSchema.js lines 374-394 (`makeSchemaDef`), dispatching to the
kind-specific builders (lines 396-504).  Object, interface and input-object
definitions build only their shell eagerly — their field maps are deferred
thunks, modelled by `makeFieldDefMapWith` / `makeInputValuesWith` applied
later to the same definition.  Enum values (lines 454-470) and union member
lists (line 477) are built eagerly.  Scalar serialize/parse stubs (inert
placeholders) carry no information and are not represented. -/
def makeSchemaDefWith (resolve : Resolve) (d : TypeDef) (st : BState) :
    Except BFail (GType × BState) :=
  match d with
  | .objectT n _ _ loc => .ok (.object n.value (getDescription loc), st)
  | .ifaceT n _ loc => .ok (.iface n.value (getDescription loc), st)
  | .enumT n values loc =>
    .ok (.enum n.value (getDescription loc)
      (values.map (fun v =>
        (v.name, ⟨getDescription v.loc, getDeprecationReason (some v.directives)⟩))), st)
  | .unionT n types loc =>
    match resolveUnionMembersWith resolve types st with
    | .error e => .error e
    | .ok (ms, st') => .ok (.union n.value (getDescription loc) ms, st')
  | .scalarT n loc => .ok (.scalar n.value (getDescription loc), st)
  | .inputObjectT n _ loc => .ok (.inputObject n.value (getDescription loc), st)

/-- buildASTSchema.js lines 294-313 (`typeDefNamed`): the named-type
registry.  Cache hit returns the existing entry; a name with no definition
pushes a "not found" diagnostic and returns null; otherwise the matching
builder runs and the result is inserted into the cache AFTER the builder
returns (the source assigns `innerTypeMap[typeName]` only once
`makeSchemaDef` has come back — eager member resolution therefore re-enters
with the name still uncached).  `fuel` bounds the recursion depth of the
JavaScript call stack. -/
def typeDefNamed : Nat → Ctx → String → Option Nat → BState →
    Except BFail (Option GType × BState)
  | 0, _, _, _, _ => .error .outOfFuel
  | fuel + 1, ctx, typeName, nodeId, st =>
    match st.innerTypeMap.lookup typeName with
    | some t => .ok (some t, st)
    | none =>
      match ctx.nodeMap.lookup typeName with
      | none => .ok (none, pushErr st (.typeNotFound typeName) (some nodeId.toList))
      | some d =>
        match makeSchemaDefWith (fun n i s => typeDefNamed fuel ctx n i s) d st with
        | .error e => .error e
        | .ok (innerTypeDef, st') =>
          .ok (some innerTypeDef,
            { st' with innerTypeMap := (typeName, innerTypeDef) :: st'.innerTypeMap })

/-! ### Deferred field and input-value maps

These are the bodies of the `fields: () => ...` / `interfaces: () => ...`
thunks; each thunk is invoked once (memoised by the library) with the
registry in scope.  `keyValMap` (an external graphql-js helper) builds a map
keyed by the key function; it is represented as the association list in
declaration order. -/

/-- The per-field record of `makeFieldDefMap` (lines 407-421). -/
structure FieldInfo where
  type : GType
  description : Option String
  args : List (String × InputInfo)
  deprecationReason : Option GValue
deriving Repr

/-- buildASTSchema.js lines 427-441 (`makeInputValues`). -/
def makeInputValuesWith (resolve : Resolve) :
    List InputValueDef → BState → Except BFail (List (String × InputInfo) × BState)
  | [], st => .ok ([], st)
  | v :: rest, st =>
    match produceInputTypeWith resolve v.type st with
    | .error e => .error e
    | .ok (t, st') =>
      match makeInputValuesWith resolve rest st' with
      | .error e => .error e
      | .ok (vs, st'') =>
        .ok ((v.name, ⟨t, getDescription v.loc, v.defaultValue⟩) :: vs, st'')

/-- buildASTSchema.js lines 407-421 (`makeFieldDefMap`). -/
def makeFieldDefMapWith (resolve : Resolve) :
    List FieldDef → BState → Except BFail (List (String × FieldInfo) × BState)
  | [], st => .ok ([], st)
  | f :: rest, st =>
    match produceOutputTypeWith resolve f.type st with
    | .error e => .error e
    | .ok (t, st') =>
      match makeInputValuesWith resolve f.arguments st' with
      | .error e => .error e
      | .ok (args, st'') =>
        match makeFieldDefMapWith resolve rest st'' with
        | .error e => .error e
        | .ok (fs, st3) =>
          .ok ((f.name,
            ⟨t, getDescription f.loc, args, getDeprecationReason (some f.directives)⟩) :: fs,
            st3)

/-- buildASTSchema.js lines 423-425 (`makeImplementedInterfaces`). -/
def makeImplementedInterfacesWith (resolve : Resolve) :
    List TypeNode → BState → Except BFail (List GType × BState)
  | [], st => .ok ([], st)
  | i :: rest, st =>
    match produceInterfaceTypeWith resolve i st with
    | .error e => .error e
    | .ok (t, st') =>
      match makeImplementedInterfacesWith resolve rest st' with
      | .error e => .error e
      | .ok (ts, st'') => .ok (t :: ts, st'')

/-! ### Phase A: document partitioning (lines 125-178) -/

/-- The accumulator of the partition loop (lines 133-167): current
`schemaDef`, the errors pushed so far, `typeDefs`, `nodeMap`,
`nodeMapWithAllReferences` (key-insertion order preserved, as for a
JavaScript object), and `directiveDefs`. -/
structure ScanAcc where
  schemaDef : Option SchemaDef
  errors : List GQLError
  typeDefs : List TypeDef
  nodeMap : List (String × TypeDef)
  nodeMapAll : List (String × List TypeDef)
  directiveDefs : List DirectiveDefNode

/-- The empty accumulator. -/
def ScanAcc.empty : ScanAcc := ⟨none, [], [], [], [], []⟩

/-- `if (!map[name]) map[name] = []; map[name].push(d)`: append `td` to the
entry of `name`, creating it (at the end, preserving key-insertion order)
when absent. -/
def updAppend : List (String × List TypeDef) → String → TypeDef → List (String × List TypeDef)
  | [], name, td => [(name, [td])]
  | (k, l) :: rest, name, td =>
    if k = name then (k, l ++ [td]) :: rest else (k, l) :: updAppend rest name td

/-- One iteration of the partition loop (the `switch` of lines 135-166).
A second schema block pushes a diagnostic citing the previously seen block
and the new one, and the new block REPLACES the remembered one
(`schemaDef = d` runs unconditionally, line 144). -/
def scanStep (acc : ScanAcc) (d : Definition) : ScanAcc :=
  match d with
  | .schemaD sd =>
    match acc.schemaDef with
    | some prev =>
      { acc with
        errors := acc.errors ++ [newGQLError .multipleSchemaDefs (some [prev.id, sd.id]) .error]
        schemaDef := some sd }
    | none => { acc with schemaDef := some sd }
  | .typeD td =>
    let name := td.name.value
    let acc1 :=
      if (acc.nodeMap.lookup name).isSome then acc
      else { acc with typeDefs := acc.typeDefs ++ [td], nodeMap := acc.nodeMap ++ [(name, td)] }
    { acc1 with nodeMapAll := updAppend acc1.nodeMapAll name td }
  | .directiveD dd => { acc with directiveDefs := acc.directiveDefs ++ [dd] }
  | .otherD => acc

/-- The partition loop over all definitions. -/
def scanDefs : ScanAcc → List Definition → ScanAcc
  | acc, [] => acc
  | acc, d :: rest => scanDefs (scanStep acc d) rest

/-- Lines 169-178: one diagnostic per name with more than one definition,
citing the name nodes of every occurrence (key-insertion order, as
`Object.keys`). -/
def dupNameErrors (all : List (String × List TypeDef)) : List GQLError :=
  (all.filter (fun kv => 1 < kv.2.length)).map (fun kv =>
    newGQLError (.duplicateTypeName kv.1) (some (kv.2.map (fun td => td.name.id))) .error)

/-- Phase A: partition the document and append the duplicate-name
diagnostics. -/
def phaseA (ast : Document) : ScanAcc :=
  let s := scanDefs ScanAcc.empty ast.definitions
  { s with errors := s.errors ++ dupNameErrors s.nodeMapAll }

/-- Lines 180-205: root operation type names.  With a schema block, read its
operation-type list (each listed operation overwrites the previous value for
that key); without one, use the conventional names when registered. -/
def resolveRoots (schemaDef : Option SchemaDef) (nodeMap : List (String × TypeDef)) :
    Option String × Option String × Option String :=
  match schemaDef with
  | some sd =>
    sd.operationTypes.foldl
      (fun acc ot =>
        if ot.operation = "query" then (some ot.typeName, acc.2.1, acc.2.2)
        else if ot.operation = "mutation" then (acc.1, some ot.typeName, acc.2.2)
        else if ot.operation = "subscription" then (acc.1, acc.2.1, some ot.typeName)
        else acc)
      (none, none, none)
  | none =>
    ((nodeMap.lookup "Query").map (fun _ => "Query"),
     (nodeMap.lookup "Mutation").map (fun _ => "Mutation"),
     (nodeMap.lookup "Subscription").map (fun _ => "Subscription"))

/-! ### Directive construction (lines 242-256, 269-278) -/

/-- buildASTSchema.js lines 269-278 (`getDirective`). -/
def getDirectiveF (resolve : Resolve) (dd : DirectiveDefNode) (st : BState) :
    Except BFail (GQLDirective × BState) :=
  match makeInputValuesWith resolve dd.arguments st with
  | .error e => .error e
  | .ok (args, st') =>
    .ok ({ name := dd.name.value
           description := getDescription dd.loc
           locations := dd.locations
           args := args }, st')

/-- `directiveDefs.map(getDirective)` (line 243), threading the state. -/
def buildDirectivesF (resolve : Resolve) :
    List DirectiveDefNode → BState → Except BFail (List GQLDirective × BState)
  | [], st => .ok ([], st)
  | dd :: rest, st =>
    match getDirectiveF resolve dd st with
    | .error e => .error e
    | .ok (d, st') =>
      match buildDirectivesF resolve rest st' with
      | .error e => .error e
      | .ok (ds, st'') => .ok (d :: ds, st'')

/-- Lines 245-256: append each built-in directive only when no directive of
that name is present yet (each check sees the pushes before it). -/
def appendBuiltinDirectives (ds : List GQLDirective) : List GQLDirective :=
  let ds1 := if ds.any (fun d => d.name = "skip") then ds else ds ++ [GraphQLSkipDirective]
  let ds2 := if ds1.any (fun d => d.name = "include") then ds1 else ds1 ++ [GraphQLIncludeDirective]
  if ds2.any (fun d => d.name = "deprecated") then ds2 else ds2 ++ [GraphQLDeprecatedDirective]

/-! ### Schema assembly (lines 231, 258-292) -/

/-- Line 231: `typeDefs.map(def => typeDefNamed(def.name.value, def))
.filter(Boolean)`; the node passed for diagnostics is the definition itself
(represented by its name node's id). -/
def buildTypesF (fuel : Nat) (ctx : Ctx) :
    List TypeDef → BState → Except BFail (List GType × BState)
  | [], st => .ok ([], st)
  | td :: rest, st =>
    match typeDefNamed fuel ctx td.name.value (some td.name.id) st with
    | .error e => .error e
    | .ok (t?, st') =>
      match buildTypesF fuel ctx rest st' with
      | .error e => .error e
      | .ok (ts, st'') => .ok (t?.toList ++ ts, st'')

/-- buildASTSchema.js lines 280-292 (`getObjectType`): called on
`nodeMap[rootTypeName]`.  When that lookup is `undefined` the source reads
`typeNode.name.value` and throws a TypeError — the `nullAccess` failure.
Otherwise resolve the name (the node passed is `PLACEHOLDER_TYPES.objectType`,
a non-AST value, hence `none`) and push a diagnostic unless the result is a
GraphQLObjectType instance. -/
def getObjectTypeF (fuel : Nat) (ctx : Ctx) (typeNode : Option TypeDef) (st : BState) :
    Except BFail (Option GType × BState) :=
  match typeNode with
  | none => .error .nullAccess
  | some tn =>
    match typeDefNamed fuel ctx tn.name.value none st with
    | .error e => .error e
    | .ok (t?, st') =>
      let isObj := match t? with
        | some t => isObjectInstance t
        | none => false
      if isObj then .ok (t?, st')
      else .ok (t?, pushErr st' .astMustProvideObject (some [tn.name.id]))

/-- `rootName ? getObjectType(nodeMap[rootName]) : null` (lines 259-261). -/
def rootObjectType (fuel : Nat) (ctx : Ctx) (rootName : Option String) (st : BState) :
    Except BFail (Option GType × BState) :=
  match rootName with
  | none => .ok (none, st)
  | some n => getObjectTypeF fuel ctx (ctx.nodeMap.lookup n) st

/-- The returned schema value (src/utils/GraphQLSchema.js constructor
arguments, line 258-265). -/
structure GQLSchema where
  query : Option GType
  mutation : Option GType
  subscription : Option GType
  types : List GType
  directives : List GQLDirective
  nodeMap : List (String × TypeDef)

/-- The `(schema, errors)` pair returned by `buildASTSchema`. -/
structure BuildResult where
  schema : GQLSchema
  errors : List GQLError

/-- Modelled from the spec: `GraphQLSchema` (src/utils/GraphQLSchema.js) is
not under `src/`; per spec section 4.6 the deferred field maps are
"deferred-but-memoized" and the whole document is walked in the pass, and per
section 6 the returned diagnostics include the ones raised at assembly time.
This forces the deferred thunks of one type definition exactly once,
collecting their diagnostics into the state. -/
def forceTypeDefF (fuel : Nat) (ctx : Ctx) (d : TypeDef) (st : BState) :
    Except BFail BState :=
  match d with
  | .objectT _ interfaces fields _ =>
    match makeFieldDefMapWith (typeDefNamed fuel ctx) fields st with
    | .error e => .error e
    | .ok (_, st') =>
      match makeImplementedInterfacesWith (typeDefNamed fuel ctx) interfaces st' with
      | .error e => .error e
      | .ok (_, st'') => .ok st''
  | .ifaceT _ fields _ =>
    match makeFieldDefMapWith (typeDefNamed fuel ctx) fields st with
    | .error e => .error e
    | .ok (_, st') => .ok st'
  | .inputObjectT _ fields _ =>
    match makeInputValuesWith (typeDefNamed fuel ctx) fields st with
    | .error e => .error e
    | .ok (_, st') => .ok st'
  | _ => .ok st

/-- Modelled from the spec (see `forceTypeDefF`): walk every registered type
definition once, forcing its deferred maps. -/
def schemaErrorsF (fuel : Nat) (ctx : Ctx) :
    List TypeDef → BState → Except BFail BState
  | [], st => .ok st
  | td :: rest, st =>
    match forceTypeDefF fuel ctx td st with
    | .error e => .error e
    | .ok st' => schemaErrorsF fuel ctx rest st'

/-- buildASTSchema.js lines 118-267 (`buildASTSchema`), for an input of kind
DOCUMENT: partition the definitions, report duplicate names, resolve the
root operation type names (reporting a missing query root), build every
registered type (line 231), build the directive set with built-in defaults,
resolve the root object types (line 258-261, which throws on a root name
with no registered definition), and return the schema together with every
accumulated diagnostic. -/
def buildASTSchema (fuel : Nat) (ast : Document) : Except BFail BuildResult :=
  let pA := phaseA ast
  let ctx : Ctx := ⟨pA.nodeMap⟩
  let roots := resolveRoots pA.schemaDef pA.nodeMap
  let errs1 := pA.errors ++
    (if roots.1.isNone then [newGQLError .missingQueryRoot none .error] else [])
  let st0 : BState := ⟨initialTypeMap, errs1⟩
  match buildTypesF fuel ctx pA.typeDefs st0 with
  | .error e => .error e
  | .ok (userTypes, st1) =>
    let types := userTypes ++ defaultScalarTypes
    match buildDirectivesF (typeDefNamed fuel ctx) pA.directiveDefs st1 with
    | .error e => .error e
    | .ok (ds, st2) =>
      let directives := appendBuiltinDirectives ds
      match rootObjectType fuel ctx roots.1 st2 with
      | .error e => .error e
      | .ok (queryType, st3) =>
        match rootObjectType fuel ctx roots.2.1 st3 with
        | .error e => .error e
        | .ok (mutationType, st4) =>
          match rootObjectType fuel ctx roots.2.2 st4 with
          | .error e => .error e
          | .ok (subscriptionType, st5) =>
            match schemaErrorsF fuel ctx pA.typeDefs st5 with
            | .error e => .error e
            | .ok st6 =>
              .ok ⟨⟨queryType, mutationType, subscriptionType, types, directives, pA.nodeMap⟩,
                st6.errors⟩

/-! ### Wrapper structures (for the round-trip property) -/

/-- One list/non-null modifier. -/
inductive Wrapper
  | listW
  | nonNullW
deriving DecidableEq, Repr

/-- Apply modifiers (outermost first) around a type. -/
def applyWrappers : List Wrapper → GType → GType
  | [], t => t
  | .listW :: ws, t => .list (applyWrappers ws t)
  | .nonNullW :: ws, t => .nonNull (applyWrappers ws t)

/-- The type AST with the given modifiers (outermost first) around a name. -/
def wrapTypeNode : List Wrapper → NameNode → TypeNode
  | [], n => .named n
  | .listW :: ws, n => .listType (wrapTypeNode ws n)
  | .nonNullW :: ws, n => .nonNullType (wrapTypeNode ws n)

/-- No non-null modifier directly inside a non-null modifier. -/
def noAdjacentNonNull : List Wrapper → Bool
  | .nonNullW :: .nonNullW :: _ => false
  | _ :: ws => noAdjacentNonNull ws
  | [] => true

/-- Recover the modifier structure (outermost first) and the innermost named
type from a resolved type. -/
def stripWrappers : GType → List Wrapper × GType
  | .list t => let s := stripWrappers t; (.listW :: s.1, s.2)
  | .nonNull t => let s := stripWrappers t; (.nonNullW :: s.1, s.2)
  | t => ([], t)

/-! ### Helper notions for the description extractor theorems -/

/-- `adjChainB R nl`: the tokens of `R` (in reverse source order) each sit
exactly one line above the token after them, the first one being one line
above line `nl`. -/
def adjChainB : List Token → Nat → Bool
  | [], _ => true
  | t :: rest, nl => t.line + 1 = nl && adjChainB rest t.line

/-- The `nextLine` value after walking all tokens of the list: the line of
its last token, or the starting line for an empty list. -/
def endLine : List Token → Nat → Nat
  | [], nl => nl
  | t :: rest, _ => endLine rest t.line

/-! ### Concrete example documents used by the claims -/

/-- A document whose schema block declares `query: Foo` while no type named
`Foo` is defined. -/
def docMissingRoot : Document :=
  ⟨[.schemaD ⟨[⟨"query", "Foo"⟩], 0⟩]⟩

/-- `union A = B` / `union B = A`: two union definitions whose member lists
name each other. -/
def docUnionCycle : Document :=
  ⟨[ .typeD (.unionT ⟨"A", 0⟩ [.named ⟨"B", 1⟩] none)
   , .typeD (.unionT ⟨"B", 2⟩ [.named ⟨"A", 3⟩] none) ]⟩

/-- Three schema definition blocks (ids 0, 1, 2). -/
def docThreeSchemas : Document :=
  ⟨[.schemaD ⟨[], 0⟩, .schemaD ⟨[], 1⟩, .schemaD ⟨[], 2⟩]⟩

/-- A document defining its own `deprecated` directive (with a `why`
argument instead of `reason`) and a `Query` type with a field carrying
`@deprecated(why: "x")`. -/
def docCustomDeprecated : Document :=
  ⟨[ .directiveD ⟨⟨"deprecated", 0⟩, ["FIELD_DEFINITION"],
       [⟨"why", .named ⟨"String", 1⟩, none, none⟩], none⟩
   , .typeD (.objectT ⟨"Query", 2⟩ []
       [⟨"f", .named ⟨"String", 3⟩, [], [⟨"deprecated", [("why", .str "x")]⟩], none⟩] none) ]⟩

/-- The usage node `@deprecated(why: "x")` of `docCustomDeprecated`. -/
def customDeprecatedUsage : DirectiveUsage := ⟨"deprecated", [("why", .str "x")]⟩

/-- The directive definition node of `docCustomDeprecated`:
`directive @deprecated(why: String) on FIELD_DEFINITION`. -/
def customDepDefNode : DirectiveDefNode :=
  ⟨⟨"deprecated", 0⟩, ["FIELD_DEFINITION"], [⟨"why", .named ⟨"String", 1⟩, none, none⟩], none⟩

/-- A document declaring the type name `A` twice (a scalar and an object),
plus a `Query` type referencing `A`. -/
def docDupNames : Document :=
  ⟨[ .typeD (.scalarT ⟨"A", 0⟩ none)
   , .typeD (.objectT ⟨"Query", 1⟩ [] [⟨"a", .named ⟨"A", 2⟩, [], [], none⟩] none)
   , .typeD (.objectT ⟨"A", 3⟩ [] [⟨"x", .named ⟨"String", 4⟩, [], [], none⟩] none) ]⟩

/-- `type A { b: B }` / `type B { a: A }`: mutually recursive object
types. -/
def docMutualObjects : Document :=
  ⟨[ .typeD (.objectT ⟨"A", 0⟩ [] [⟨"b", .named ⟨"B", 1⟩, [], [], none⟩] none)
   , .typeD (.objectT ⟨"B", 2⟩ [] [⟨"a", .named ⟨"A", 3⟩, [], [], none⟩] none) ]⟩

/-- A document defining only the scalar `S` (for the wrapper round-trip
witness). -/
def docScalarS : Document :=
  ⟨[.typeD (.scalarT ⟨"S", 0⟩ none)]⟩

/-! ### Derived views of a document used to state the claims -/

/-- The schema definition blocks of a definition list, in document order. -/
def schemaBlocks : List Definition → List SchemaDef
  | [] => []
  | .schemaD sd :: rest => sd :: schemaBlocks rest
  | _ :: rest => schemaBlocks rest

/-- The type definitions carrying a given name, in document order. -/
def typeOccurrences (name : String) : List Definition → List TypeDef
  | [] => []
  | .typeD td :: rest =>
    if td.name.value = name then td :: typeOccurrences name rest
    else typeOccurrences name rest
  | _ :: rest => typeOccurrences name rest

/-- The multiple-schema-definition diagnostics produced by the partition
loop, as a function of the currently remembered block: each further block is
reported against the immediately preceding one. -/
def schemaPairErrs : Option SchemaDef → List SchemaDef → List GQLError
  | _, [] => []
  | none, s :: rest => schemaPairErrs (some s) rest
  | some prev, s :: rest =>
    newGQLError .multipleSchemaDefs (some [prev.id, s.id]) .error :: schemaPairErrs (some s) rest

/-- The registry context of `docUnionCycle`. -/
def ctxCycle : Ctx := ⟨(phaseA docUnionCycle).nodeMap⟩

/-- The registry context of `docMutualObjects`. -/
def ctxMutual : Ctx := ⟨(phaseA docMutualObjects).nodeMap⟩

/-- The registry context of `docScalarS`. -/
def ctxScalarS : Ctx := ⟨(phaseA docScalarS).nodeMap⟩

/-- The registry context of `docCustomDeprecated`. -/
def ctxCustomDep : Ctx := ⟨(phaseA docCustomDeprecated).nodeMap⟩

/-- The cache state after building the types of `docMutualObjects`
(line 231), starting from the seeded cache with no prior errors. -/
def mutualBuiltState : Option BState :=
  (buildTypesF 10 ctxMutual (phaseA docMutualObjects).typeDefs ⟨initialTypeMap, []⟩).toOption.map
    Prod.snd

/-- The field list of type `A` of `docMutualObjects` (captured by the
deferred `fields` thunk of its builder). -/
def fieldsOfA : List FieldDef := [⟨"b", .named ⟨"B", 1⟩, [], [], none⟩]

/-- The field list of type `Query` of `docCustomDeprecated`. -/
def fieldsOfQueryCD : List FieldDef :=
  [⟨"f", .named ⟨"String", 3⟩, [], [⟨"deprecated", [("why", .str "x")]⟩], none⟩]

/-! ## Theorems -/

/-! ### Helper lemmas for the description extractor -/

theorem min?_reverse_nat (l : List Nat) : l.reverse.min? = l.min? := by
  rcases hx : l.min? with _ | a
  · rw [List.min?_eq_none_iff] at hx ⊢
    simp [hx]
  · rw [List.min?_eq_some_iff'] at hx ⊢
    exact ⟨List.mem_reverse.mpr hx.1, fun b hb => hx.2 b (List.mem_reverse.mp hb)⟩

theorem endLine_concat (xs : List Token) (y : Token) (nl : Nat) :
    endLine (xs ++ [y]) nl = y.line := by
  induction xs generalizing nl with
  | nil => rfl
  | cons x xs ih => simpa [endLine] using ih x.line

/-- Walking the token chain backwards over a block of comment tokens that
are pairwise line-adjacent collects exactly their values, and stops at the
token before the block when that token is separated by a line gap. -/
theorem collect_of_chain (R : List Token) (p : Token) (rest : List Token) (nl : Nat)
    (hcom : ∀ t ∈ R, t.kind = TokenKind.comment)
    (hadj : adjChainB R nl = true)
    (hgap : p.line + 1 ≠ endLine R nl)
    (hline : p.line ≠ endLine R nl) :
    collectComments (R ++ p :: rest) nl = R.map Token.value := by
  induction R generalizing nl with
  | nil =>
    simp only [List.nil_append, List.map_nil]
    simp only [endLine] at hgap
    cases rest with
    | nil => rfl
    | cons q qs =>
      simp only [collectComments, ite_eq_right_iff]
      intro h
      exact absurd h.2.1 hgap
  | cons t R' ih =>
    simp only [adjChainB, Bool.and_eq_true, decide_eq_true_eq] at hadj
    simp only [endLine] at hgap hline
    cases R' with
    | nil =>
      simp only [List.nil_append, List.cons_append, collectComments]
      rw [if_pos ⟨hcom t (by simp), hadj.1, fun h => hline h.symm⟩]
      simp only [List.map_cons, List.map_nil]
      have hbase := ih t.line (by intro u hu; cases hu) rfl
      simp only [endLine, List.nil_append, List.map_nil] at hbase
      rw [hbase hgap hline]
    | cons u R'' =>
      have hu1 : u.line + 1 = t.line := by
        simp only [adjChainB, Bool.and_eq_true, decide_eq_true_eq] at hadj
        exact hadj.2.1
      have ih' := ih t.line (fun v hv => hcom v (List.mem_cons_of_mem t hv)) hadj.2 hgap hline
      simp only [List.cons_append, collectComments]
      rw [if_pos ⟨hcom t (by simp), hadj.1, by omega⟩]
      simp only [List.cons_append] at ih'
      simp only [List.append_eq]
      rw [ih']
      simp

/-! ### C9 -/

/-- C9: a node preceded (after `front` and a gap token `p`) by the unbroken
block `b0 :: bs` of full-line comments, pairwise line-adjacent and adjacent
to the node's start line but separated from `p` by a blank-line gap, gets as
description exactly the block's lines in original order, each stripped of
the minimum leading-space count of the block. -/
theorem c9_description_from_comment_block (front : List Token) (p b0 : Token) (bs : List Token)
    (startLine : Nat)
    (hcom : ∀ t ∈ b0 :: bs, t.kind = TokenKind.comment)
    (hadj : adjChainB (b0 :: bs).reverse startLine = true)
    (hgap : p.line + 1 ≠ b0.line)
    (hline : p.line ≠ b0.line) :
    getDescription (some ⟨front ++ p :: (b0 :: bs), startLine⟩) =
      some (String.intercalate "\n" ((b0 :: bs).map (fun t =>
        t.value.drop ((((b0 :: bs).map (fun u => leadingSpaces u.value)).min?).getD 0)))) := by
  have hrev : (front ++ p :: (b0 :: bs)).reverse =
      (b0 :: bs).reverse ++ p :: front.reverse := by
    simp
  have hend : endLine ((b0 :: bs).reverse) startLine = b0.line := by
    have : (b0 :: bs).reverse = bs.reverse ++ [b0] := by simp
    rw [this, endLine_concat]
  have hcol : collectComments ((b0 :: bs).reverse ++ p :: front.reverse) startLine =
      (b0 :: bs).reverse.map Token.value := by
    refine collect_of_chain _ p front.reverse startLine ?_ hadj ?_ ?_
    · intro t ht
      exact hcom t (List.mem_reverse.mp ht)
    · rw [hend]; exact hgap
    · rw [hend]; exact hline
  simp only [getDescription, hrev, hcol]
  simp only [List.map_reverse, min?_reverse_nat, List.reverse_reverse, List.map_map]
  rfl

/-- Witness for C9 at a concrete token stream. -/
theorem c9_description_from_comment_block_witness :
    getDescription (some ⟨[⟨.other, 1, ""⟩, ⟨.comment, 3, " early"⟩, ⟨.comment, 5, "  a"⟩,
        ⟨.comment, 6, "   b"⟩, ⟨.comment, 7, "  c"⟩], 8⟩) = some "a\n b\nc" := by
  have h := c9_description_from_comment_block [⟨.other, 1, ""⟩] ⟨.comment, 3, " early"⟩
    ⟨.comment, 5, "  a"⟩ [⟨.comment, 6, "   b"⟩, ⟨.comment, 7, "  c"⟩] 8
    (by decide) (by decide) (by decide) (by decide)
  refine h.trans ?_
  rfl

/-! ### C10 -/

/-- C10: `getDescription` returns null exactly for a node with no source
location; with a location it always returns a string, the empty string when
no qualifying comment block precedes the node. -/
theorem c10_description_null_only_without_loc :
    getDescription none = none ∧
    (∀ l : Loc, (getDescription (some l)).isSome = true) ∧
    (∀ l : Loc, collectComments l.prevTokens.reverse l.startLine = [] →
      getDescription (some l) = some "") := by
  refine ⟨rfl, fun l => rfl, fun l h => ?_⟩
  simp [getDescription, h, String.intercalate]

/-- Witness for C10 at a concrete node: a location whose preceding token is
not a comment yields the empty string, while a missing location yields
null. -/
theorem c10_description_null_only_without_loc_witness :
    getDescription (some ⟨[⟨.other, 1, ""⟩], 3⟩) = some "" ∧ getDescription none = none := by
  exact ⟨c10_description_null_only_without_loc.2.2 ⟨[⟨.other, 1, ""⟩], 3⟩ (by rfl),
    c10_description_null_only_without_loc.1⟩

/-! ### C1 -/

/-- C1 (code bug): when the schema block declares `query: Foo` and `Foo` has
no definition, `nodeMap[queryTypeName]` is `undefined` and `getObjectType`
reads `typeNode.name.value`, throwing a TypeError — the build aborts instead
of returning the accumulated diagnostics, at every recursion bound. -/
theorem c1_schema_root_without_definition_crashes (fuel : Nat) :
    buildASTSchema fuel docMissingRoot = .error .nullAccess := rfl

/-! ### C2 -/

/-- In `docUnionCycle` resolving `A` requires resolving `B` at unchanged
cache and ditto back, consuming fuel on every reentry: the registry lookup
runs out of every finite fuel on both names. -/
theorem unionCycle_exhausts_fuel (fuel : Nat) :
    ∀ (nid nid' : Option Nat) (errs : List GQLError),
      typeDefNamed fuel ctxCycle "A" nid ⟨initialTypeMap, errs⟩ = .error .outOfFuel ∧
      typeDefNamed fuel ctxCycle "B" nid' ⟨initialTypeMap, errs⟩ = .error .outOfFuel := by
  induction fuel with
  | zero => exact fun nid nid' errs => ⟨rfl, rfl⟩
  | succ f ih =>
    intro nid nid' errs
    constructor
    · have hB := (ih (some 1) (some 1) errs).2
      show typeDefNamed (f + 1) ctxCycle "A" nid ⟨initialTypeMap, errs⟩ = .error .outOfFuel
      simp only [typeDefNamed]
      rw [show (BState.mk initialTypeMap errs).innerTypeMap.lookup "A" = none from rfl,
        show ctxCycle.nodeMap.lookup "A" = some (.unionT ⟨"A", 0⟩ [.named ⟨"B", 1⟩] none) from
          rfl]
      simp only [makeSchemaDefWith, resolveUnionMembersWith, produceObjectTypeWith,
        produceTypeWith, getNamedTypeNode]
      rw [hB]
    · have hA := (ih (some 3) (some 3) errs).1
      show typeDefNamed (f + 1) ctxCycle "B" nid' ⟨initialTypeMap, errs⟩ = .error .outOfFuel
      simp only [typeDefNamed]
      rw [show (BState.mk initialTypeMap errs).innerTypeMap.lookup "B" = none from rfl,
        show ctxCycle.nodeMap.lookup "B" = some (.unionT ⟨"B", 2⟩ [.named ⟨"A", 3⟩] none) from
          rfl]
      simp only [makeSchemaDefWith, resolveUnionMembersWith, produceObjectTypeWith,
        produceTypeWith, getNamedTypeNode]
      rw [hA]

/-- C2 (code bug): on `union A = B` / `union B = A` the build does NOT
terminate: union member lists are resolved eagerly inside `makeUnionDef`
while `typeDefNamed` caches only after the builder returns, so each of the
two names re-enters resolution of the other with the cache still empty.
For every recursion bound the build exceeds it (a stack overflow in the
unbounded source). -/
theorem c2_union_cycle_does_not_terminate (fuel : Nat) :
    buildASTSchema fuel docUnionCycle = .error .outOfFuel := by
  show buildASTSchema fuel docUnionCycle = .error .outOfFuel
  have hA := (unionCycle_exhausts_fuel fuel (some 0) (some 0)
    [newGQLError .missingQueryRoot none .error]).1
  simp only [buildASTSchema, buildTypesF, TypeDef.name]
  rw [show (⟨(phaseA docUnionCycle).nodeMap⟩ : Ctx) = ctxCycle from rfl]
  rw [show ((phaseA docUnionCycle).errors ++
      (if (resolveRoots (phaseA docUnionCycle).schemaDef (phaseA docUnionCycle).nodeMap).1.isNone
        then [newGQLError .missingQueryRoot none .error] else [])) =
      [newGQLError .missingQueryRoot none .error] from rfl]
  rw [hA]

/-! ### C7 -/

/-- C7: on `type A { b: B }` / `type B { a: A }` the build completes; after
building, the registry cache binds each name exactly once, and forcing `A`'s
deferred field map resolves field `b` to precisely the cached entry for `B`
(the one also returned at top level), with the cache left unchanged. -/
theorem c7_mutual_objects_single_instance :
    (buildASTSchema 10 docMutualObjects).isOk = true ∧
    mutualBuiltState.map (fun st => st.innerTypeMap.map Prod.fst) =
      some ["B", "A", "String", "Int", "Float", "Boolean", "ID", "__Schema", "__Directive",
        "__DirectiveLocation", "__Type", "__Field", "__InputValue", "__EnumValue", "__TypeKind"] ∧
    (["B", "A", "String", "Int", "Float", "Boolean", "ID", "__Schema", "__Directive",
      "__DirectiveLocation", "__Type", "__Field", "__InputValue", "__EnumValue",
      "__TypeKind"] : List String).Nodup ∧
    mutualBuiltState.map (fun st => st.innerTypeMap.lookup "B") =
      some (some (.object "B" none)) ∧
    (mutualBuiltState.bind (fun st =>
      (makeFieldDefMapWith (typeDefNamed 10 ctxMutual) fieldsOfA st).toOption.map
        (fun q => (q.1.lookup "b").map FieldInfo.type))) = some (some (.object "B" none)) ∧
    (mutualBuiltState.bind (fun st =>
      (makeFieldDefMapWith (typeDefNamed 10 ctxMutual) fieldsOfA st).toOption.map
        Prod.snd)) = mutualBuiltState := by
  exact ⟨rfl, rfl, by decide, rfl, rfl, rfl⟩

/-! ### C6 -/

/-- C6: resolving a name that is neither cached (in particular, not a
built-in, which are pre-seeded in the cache) nor defined in the document
pushes exactly one "not found" diagnostic and returns null, and each of the
four typed entry points substitutes the non-null placeholder of its
context-appropriate kind without any further diagnostic. -/
theorem c6_unknown_reference_placeholder (fuel : Nat) (ctx : Ctx) (st : BState)
    (name : String) (i : Nat)
    (hcache : st.innerTypeMap.lookup name = none)
    (hnode : ctx.nodeMap.lookup name = none) :
    typeDefNamed (fuel + 1) ctx name (some i) st =
      .ok (none, pushErr st (.typeNotFound name) (some [i])) ∧
    produceInputTypeWith (typeDefNamed (fuel + 1) ctx) (.named ⟨name, i⟩) st =
      .ok (.placeholder .inputType, pushErr st (.typeNotFound name) (some [i])) ∧
    produceOutputTypeWith (typeDefNamed (fuel + 1) ctx) (.named ⟨name, i⟩) st =
      .ok (.placeholder .outputType, pushErr st (.typeNotFound name) (some [i])) ∧
    produceObjectTypeWith (typeDefNamed (fuel + 1) ctx) (.named ⟨name, i⟩) st =
      .ok (.placeholder .objectType, pushErr st (.typeNotFound name) (some [i])) ∧
    produceInterfaceTypeWith (typeDefNamed (fuel + 1) ctx) (.named ⟨name, i⟩) st =
      .ok (.placeholder .interfaceType, pushErr st (.typeNotFound name) (some [i])) := by
  have hres : typeDefNamed (fuel + 1) ctx name (some i) st =
      .ok (none, pushErr st (.typeNotFound name) (some [i])) := by
    simp only [typeDefNamed, hcache, hnode]
    rfl
  refine ⟨hres, ?_, ?_, ?_, ?_⟩ <;>
    simp [produceInputTypeWith, produceOutputTypeWith, produceObjectTypeWith,
      produceInterfaceTypeWith, produceTypeWith, getNamedTypeNode, hres, buildWrappedType,
      PLACEHOLDER_TYPES, isInputType, isOutputType, isObjectInstance, isInterfaceInstance]

/-- Witness for C6: the name `Bogus` in an empty document. -/
theorem c6_unknown_reference_placeholder_witness :
    initialTypeMap.lookup "Bogus" = none ∧
    produceInputTypeWith (typeDefNamed 1 ⟨[]⟩) (.named ⟨"Bogus", 7⟩) ⟨initialTypeMap, []⟩ =
      .ok (.placeholder .inputType,
        pushErr ⟨initialTypeMap, []⟩ (.typeNotFound "Bogus") (some [7])) := by
  exact ⟨rfl, (c6_unknown_reference_placeholder 0 ⟨[]⟩ ⟨initialTypeMap, []⟩ "Bogus" 7
    rfl rfl).2.1⟩

/-! ### C8 -/

/-- Stripping the wrappers of `buildWrappedType` succeeds and preserves the
written order when no non-null directly wraps a non-null and the inner type
is itself not non-null. -/
theorem buildWrappedType_of_wrappers (ws : List Wrapper) (n : NameNode) (t : GType)
    (hnn : noAdjacentNonNull ws = true) (ht : isNonNullType t = false) :
    buildWrappedType t (wrapTypeNode ws n) = .ok (applyWrappers ws t) := by
  induction ws with
  | nil => rfl
  | cons w ws ih =>
    cases w with
    | listW =>
      have hnn' : noAdjacentNonNull ws = true := by
        cases ws with
        | nil => rfl
        | cons w' ws' => cases w' <;> simpa [noAdjacentNonNull] using hnn
      simp [wrapTypeNode, buildWrappedType, ih hnn', applyWrappers]
    | nonNullW =>
      cases ws with
      | nil =>
        simp [wrapTypeNode, buildWrappedType, applyWrappers, ht]
      | cons w' ws' =>
        cases w' with
        | listW =>
          have hnn' : noAdjacentNonNull (.listW :: ws') = true := by
            simpa [noAdjacentNonNull] using hnn
          have step : buildWrappedType t (.nonNullType (wrapTypeNode (.listW :: ws') n)) =
              match buildWrappedType t (wrapTypeNode (.listW :: ws') n) with
              | .error e => .error e
              | .ok w =>
                if isNonNullType w then .error (.invariantViolation "No nesting nonnull.")
                else .ok (.nonNull w) := rfl
          rw [show wrapTypeNode (.nonNullW :: .listW :: ws') n =
            .nonNullType (wrapTypeNode (.listW :: ws') n) from rfl, step, ih hnn']
          simp [applyWrappers, isNonNullType]
        | nonNullW => simp [noAdjacentNonNull] at hnn

/-- `getNamedTypeNode` recovers the innermost name of a wrapped type
node. -/
theorem getNamedTypeNode_wrapTypeNode (ws : List Wrapper) (n : NameNode) :
    getNamedTypeNode (wrapTypeNode ws n) = n := by
  induction ws with
  | nil => rfl
  | cons w ws ih => cases w <;> simpa [wrapTypeNode, getNamedTypeNode] using ih

/-- `stripWrappers` undoes `applyWrappers` around a non-wrapper type. -/
theorem stripWrappers_applyWrappers (ws : List Wrapper) (t : GType)
    (ht : stripWrappers t = ([], t)) :
    stripWrappers (applyWrappers ws t) = (ws, t) := by
  induction ws with
  | nil => exact ht
  | cons w ws ih => cases w <;> simp [applyWrappers, stripWrappers, ih]

/-- C8: a type reference written as up to three list/non-null modifiers (no
non-null directly inside a non-null) around a name resolves to exactly the
corresponding nesting of wrappers, in written order, around the resolved
innermost named type (or the fallback when resolution returned null), and
the modifier structure is losslessly recoverable from the resolved type. -/
theorem c8_wrapper_round_trip (resolve : Resolve) (ws : List Wrapper) (n : NameNode)
    (defaultValue : GType) (st st' : BState) (r : Option GType)
    (hres : resolve n.value (some n.id) st = .ok (r, st'))
    (hdepth : ws.length ≤ 3)
    (hnn : noAdjacentNonNull ws = true)
    (hbase : stripWrappers (r.getD defaultValue) = ([], r.getD defaultValue)) :
    produceTypeWith resolve (wrapTypeNode ws n) defaultValue st =
      .ok (applyWrappers ws (r.getD defaultValue), st') ∧
    stripWrappers (applyWrappers ws (r.getD defaultValue)) = (ws, r.getD defaultValue) := by
  have hname := getNamedTypeNode_wrapTypeNode ws n
  have ht : isNonNullType (r.getD defaultValue) = false := by
    cases h : r.getD defaultValue <;> simp_all [stripWrappers, isNonNullType]
  refine ⟨?_, stripWrappers_applyWrappers ws _ hbase⟩
  simp only [produceTypeWith, hname, hres]
  rw [buildWrappedType_of_wrappers ws n _ hnn ht]

/-- Witness for C8: `[S!]` with `S` a document scalar (modifiers
list-of-non-null), resolved through the registry of `docScalarS`. -/
theorem c8_wrapper_round_trip_witness :
    typeDefNamed 5 ctxScalarS "S" (some 9) ⟨initialTypeMap, []⟩ =
      .ok (some (.scalar "S" none),
        ⟨("S", .scalar "S" none) :: initialTypeMap, []⟩) ∧
    produceTypeWith (typeDefNamed 5 ctxScalarS) (wrapTypeNode [.listW, .nonNullW] ⟨"S", 9⟩)
        (PLACEHOLDER_TYPES .outputType) ⟨initialTypeMap, []⟩ =
      .ok (.list (.nonNull (.scalar "S" none)),
        ⟨("S", .scalar "S" none) :: initialTypeMap, []⟩) ∧
    stripWrappers (.list (.nonNull (.scalar "S" none))) = ([.listW, .nonNullW], .scalar "S" none) := by
  have h := c8_wrapper_round_trip (typeDefNamed 5 ctxScalarS) [.listW, .nonNullW] ⟨"S", 9⟩
    (PLACEHOLDER_TYPES .outputType) ⟨initialTypeMap, []⟩
    ⟨("S", .scalar "S" none) :: initialTypeMap, []⟩ (some (.scalar "S" none))
    rfl (by decide) (by decide) rfl
  exact ⟨rfl, h.1, h.2⟩

/-! ### Phase A fold lemmas -/

theorem scanDefs_cons (acc : ScanAcc) (d : Definition) (rest : List Definition) :
    scanDefs acc (d :: rest) = scanDefs (scanStep acc d) rest := rfl

theorem scanStep_errors_typeD (acc : ScanAcc) (td : TypeDef) :
    (scanStep acc (.typeD td)).errors = acc.errors := by
  simp only [scanStep]
  split <;> rfl

theorem scanStep_schemaDef_typeD (acc : ScanAcc) (td : TypeDef) :
    (scanStep acc (.typeD td)).schemaDef = acc.schemaDef := by
  simp only [scanStep]
  split <;> rfl

theorem scanStep_nodeMapAll_typeD (acc : ScanAcc) (td : TypeDef) :
    (scanStep acc (.typeD td)).nodeMapAll = updAppend acc.nodeMapAll td.name.value td := by
  simp only [scanStep]
  split <;> rfl

/-- The partition loop appends exactly the consecutive-pair schema-block
diagnostics to the accumulated errors. -/
theorem scanDefs_errors (defs : List Definition) :
    ∀ acc : ScanAcc,
      (scanDefs acc defs).errors = acc.errors ++ schemaPairErrs acc.schemaDef (schemaBlocks defs) := by
  induction defs with
  | nil => intro acc; simp [scanDefs, schemaBlocks, schemaPairErrs]
  | cons d rest ih =>
    intro acc
    cases d with
    | schemaD sd =>
      show (scanDefs (scanStep acc (.schemaD sd)) rest).errors = _
      rw [ih]
      cases h : acc.schemaDef with
      | none =>
        simp [scanStep, h, schemaBlocks, schemaPairErrs]
      | some prev =>
        simp [scanStep, h, schemaBlocks, schemaPairErrs]
    | typeD td =>
      show (scanDefs (scanStep acc (.typeD td)) rest).errors = _
      rw [ih, scanStep_errors_typeD, scanStep_schemaDef_typeD]
      simp [schemaBlocks]
    | directiveD dd =>
      show (scanDefs (scanStep acc (.directiveD dd)) rest).errors = _
      rw [ih]
      simp [scanStep, schemaBlocks]
    | otherD =>
      show (scanDefs (scanStep acc .otherD) rest).errors = _
      rw [ih]
      simp [scanStep, schemaBlocks]

theorem mem_schemaPairErrs (blocks : List SchemaDef) :
    ∀ (o : Option SchemaDef) (e : GQLError), e ∈ schemaPairErrs o blocks →
      e.message = .multipleSchemaDefs := by
  induction blocks with
  | nil => intro o e h; cases o <;> cases h
  | cons s rest ih =>
    intro o e h
    cases o with
    | none => exact ih (some s) e h
    | some prev =>
      rcases List.mem_cons.mp h with h1 | h2
      · rw [h1]; rfl
      · exact ih (some s) e h2

theorem schemaPairErrs_some_eq_zip (blocks : List SchemaDef) :
    ∀ prev : SchemaDef,
      schemaPairErrs (some prev) blocks = ((prev :: blocks).zip blocks).map
        (fun p => newGQLError .multipleSchemaDefs (some [p.1.id, p.2.id]) .error) := by
  induction blocks with
  | nil => intro prev; rfl
  | cons s rest ih =>
    intro prev
    simp only [schemaPairErrs, List.zip_cons_cons, List.map_cons]
    rw [ih s]

theorem schemaPairErrs_none_eq_zip (blocks : List SchemaDef) :
    schemaPairErrs none blocks = (blocks.zip blocks.tail).map
      (fun p => newGQLError .multipleSchemaDefs (some [p.1.id, p.2.id]) .error) := by
  cases blocks with
  | nil => rfl
  | cons s rest =>
    show schemaPairErrs (some s) rest = _
    rw [schemaPairErrs_some_eq_zip rest s]
    rfl

theorem mem_dupNameErrors (all : List (String × List TypeDef)) (e : GQLError)
    (h : e ∈ dupNameErrors all) :
    ∃ nm l, (nm, l) ∈ all ∧
      e = newGQLError (.duplicateTypeName nm) (some (l.map (fun td => td.name.id))) .error := by
  simp only [dupNameErrors, List.mem_map, List.mem_filter] at h
  obtain ⟨kv, ⟨hmem, _⟩, hval⟩ := h
  exact ⟨kv.1, kv.2, hmem, hval.symm⟩

/-! ### C3 -/

/-- C3 counterexample: with three schema blocks the build returns TWO
multiple-schema diagnostics (citing blocks 0,1 and blocks 1,2), not a single
one citing the first two — the detection compares each new block against the
previously seen block, which is reassigned each time. -/
theorem c3_counterexample_three_blocks :
    ((buildASTSchema 1 docThreeSchemas).toOption.map (fun r =>
        (r.errors.filter (fun e => e.message = .multipleSchemaDefs)).map GQLError.locations)) =
      some [some [0, 1], some [1, 2]] ∧
    ¬ ((buildASTSchema 1 docThreeSchemas).toOption.map (fun r =>
        (r.errors.filter (fun e => e.message = .multipleSchemaDefs)).map GQLError.locations)) =
      some [some [0, 1]] := by
  constructor
  · rfl
  · intro h
    exact absurd (rfl.trans h) (by decide)

/-- C3 amended: for a document with n schema definition blocks the build
emits n − 1 multiple-schema diagnostics, the i-th citing blocks i and i+1 in
document order (so with exactly two blocks: one diagnostic citing the first
two). -/
theorem c3_amended_consecutive_schema_pairs (ast : Document) :
    (phaseA ast).errors.filter (fun e => e.message = .multipleSchemaDefs) =
      ((schemaBlocks ast.definitions).zip (schemaBlocks ast.definitions).tail).map
        (fun p => newGQLError .multipleSchemaDefs (some [p.1.id, p.2.id]) .error) ∧
    ((phaseA ast).errors.filter (fun e => e.message = .multipleSchemaDefs)).length =
      (schemaBlocks ast.definitions).length - 1 := by
  have herr : (phaseA ast).errors =
      schemaPairErrs none (schemaBlocks ast.definitions) ++
        dupNameErrors (scanDefs ScanAcc.empty ast.definitions).nodeMapAll := by
    show (scanDefs ScanAcc.empty ast.definitions).errors ++ _ = _
    rw [scanDefs_errors ast.definitions ScanAcc.empty]
    rfl
  have hfilter : (phaseA ast).errors.filter (fun e => e.message = .multipleSchemaDefs) =
      schemaPairErrs none (schemaBlocks ast.definitions) := by
    rw [herr, List.filter_append]
    have h1 : (schemaPairErrs none (schemaBlocks ast.definitions)).filter
        (fun e => e.message = .multipleSchemaDefs) =
        schemaPairErrs none (schemaBlocks ast.definitions) := by
      apply List.filter_eq_self.mpr
      intro e he
      simpa using mem_schemaPairErrs _ none e he
    have h2 : (dupNameErrors (scanDefs ScanAcc.empty ast.definitions).nodeMapAll).filter
        (fun e => e.message = .multipleSchemaDefs) = [] := by
      apply List.filter_eq_nil_iff.mpr
      intro e he
      obtain ⟨nm, l, _, hval⟩ := mem_dupNameErrors _ e he
      simp [hval, newGQLError]
    rw [h1, h2, List.append_nil]
  constructor
  · rw [hfilter, schemaPairErrs_none_eq_zip]
  · rw [hfilter, schemaPairErrs_none_eq_zip, List.length_map, List.length_zip,
      List.length_tail]
    omega

/-! ### C5: assoc-list lemmas for the duplicate-name registry -/

theorem lookup_updAppend_self (m : List (String × List TypeDef)) (k : String) (td : TypeDef) :
    (updAppend m k td).lookup k = some ((m.lookup k).getD [] ++ [td]) := by
  induction m with
  | nil => simp [updAppend, List.lookup]
  | cons p rest ih =>
    by_cases h : p.1 = k
    · simp [updAppend, h, List.lookup]
    · have hb : (k == p.1) = false := beq_eq_false_iff_ne.mpr (Ne.symm h)
      simp [updAppend, h, List.lookup, hb, ih]

theorem lookup_updAppend_ne (m : List (String × List TypeDef)) (k : String) (td : TypeDef)
    (k' : String) (h : k' ≠ k) :
    (updAppend m k td).lookup k' = m.lookup k' := by
  induction m with
  | nil => simp [updAppend, List.lookup, beq_eq_false_iff_ne.mpr h]
  | cons p rest ih =>
    by_cases hp : p.1 = k
    · have hb : (k' == p.1) = false := beq_eq_false_iff_ne.mpr (fun hh => h (hp ▸ hh))
      have hb2 : (k' == k) = false := beq_eq_false_iff_ne.mpr h
      simp [updAppend, hp, List.lookup, hb, hb2]
    · by_cases hp' : p.1 = k'
      · simp [updAppend, hp, hp', List.lookup, h]
      · have hb : (k' == p.1) = false := beq_eq_false_iff_ne.mpr (Ne.symm hp')
        simp [updAppend, hp, List.lookup, hb, ih]

theorem keys_updAppend (m : List (String × List TypeDef)) (k : String) (td : TypeDef) :
    (updAppend m k td).map Prod.fst =
      if (m.lookup k).isSome then m.map Prod.fst else m.map Prod.fst ++ [k] := by
  induction m with
  | nil => simp [updAppend, List.lookup]
  | cons p rest ih =>
    by_cases h : p.1 = k
    · simp [updAppend, h, List.lookup]
    · have hb : (k == p.1) = false := beq_eq_false_iff_ne.mpr (Ne.symm h)
      simp only [updAppend, if_neg h, List.map_cons, List.lookup, hb]
      rw [ih]
      by_cases hs : (rest.lookup k).isSome <;> simp [hs]

theorem lookup_eq_none_of_not_mem_keys (m : List (String × List TypeDef)) (k : String)
    (h : k ∉ m.map Prod.fst) : m.lookup k = none := by
  induction m with
  | nil => rfl
  | cons p rest ih =>
    simp only [List.map_cons, List.mem_cons] at h
    push_neg at h
    have hb : (k == p.1) = false := beq_eq_false_iff_ne.mpr h.1
    simp [List.lookup, hb, ih h.2]

theorem not_mem_keys_of_lookup_eq_none (m : List (String × List TypeDef)) (k : String)
    (h : m.lookup k = none) : k ∉ m.map Prod.fst := by
  induction m with
  | nil => simp
  | cons p rest ih =>
    by_cases hp : p.1 = k
    · rw [show List.lookup k (p :: rest) = some p.2 from by
        simp [List.lookup, hp]] at h
      cases h
    · have hb : (k == p.1) = false := beq_eq_false_iff_ne.mpr (Ne.symm hp)
      rw [show List.lookup k (p :: rest) = List.lookup k rest from by
        simp [List.lookup, hb]] at h
      simp only [List.map_cons, List.mem_cons]
      push_neg
      exact ⟨Ne.symm hp, ih h⟩

theorem nodup_keys_updAppend (m : List (String × List TypeDef)) (k : String) (td : TypeDef)
    (h : (m.map Prod.fst).Nodup) : ((updAppend m k td).map Prod.fst).Nodup := by
  rw [keys_updAppend]
  by_cases hs : (m.lookup k).isSome
  · simpa [hs] using h
  · have hnone : m.lookup k = none := by
      cases hl : m.lookup k
      · rfl
      · rw [hl] at hs; simp at hs
    have hnm : k ∉ m.map Prod.fst := not_mem_keys_of_lookup_eq_none m k hnone
    simp only [hnone, Option.isSome_none, Bool.false_eq_true, if_false]
    rw [List.nodup_append]
    refine ⟨h, List.nodup_singleton k, ?_⟩
    intro a ha hk
    simp only [List.mem_singleton] at hk
    exact hnm (hk ▸ ha)

/-- The all-references registry after the scan: each name's entry lists its
occurrences, in document order, appended to what the accumulator already
held. -/
theorem scanDefs_nodeMapAll_lookup (defs : List Definition) :
    ∀ (acc : ScanAcc) (name : String),
      ((scanDefs acc defs).nodeMapAll.lookup name).getD [] =
        (acc.nodeMapAll.lookup name).getD [] ++ typeOccurrences name defs ∧
      ((scanDefs acc defs).nodeMapAll.lookup name).isSome =
        ((acc.nodeMapAll.lookup name).isSome || !(typeOccurrences name defs).isEmpty) := by
  induction defs with
  | nil => intro acc name; simp [scanDefs, typeOccurrences]
  | cons d rest ih =>
    intro acc name
    rw [scanDefs_cons]
    cases d with
    | typeD td =>
      obtain ⟨ihg, ihs⟩ := ih (scanStep acc (.typeD td)) name
      rw [scanStep_nodeMapAll_typeD] at ihg ihs
      by_cases h : td.name.value = name
      · rw [h, lookup_updAppend_self] at ihg ihs
        constructor
        · rw [ihg]
          simp [typeOccurrences, h]
        · rw [ihs]
          simp [typeOccurrences, h]
      · rw [lookup_updAppend_ne _ _ _ _ (fun hh => h hh.symm)] at ihg ihs
        constructor
        · rw [ihg]
          simp [typeOccurrences, h]
        · rw [ihs]
          simp [typeOccurrences, h]
    | schemaD sd =>
      obtain ⟨ihg, ihs⟩ := ih (scanStep acc (.schemaD sd)) name
      have hsame : (scanStep acc (.schemaD sd)).nodeMapAll = acc.nodeMapAll := by
        simp only [scanStep]
        cases acc.schemaDef <;> rfl
      rw [hsame] at ihg ihs
      exact ⟨by rw [ihg]; simp [typeOccurrences], by rw [ihs]; simp [typeOccurrences]⟩
    | directiveD dd =>
      obtain ⟨ihg, ihs⟩ := ih (scanStep acc (.directiveD dd)) name
      exact ⟨by rw [ihg]; simp [scanStep, typeOccurrences],
        by rw [ihs]; simp [scanStep, typeOccurrences]⟩
    | otherD =>
      obtain ⟨ihg, ihs⟩ := ih (scanStep acc .otherD) name
      exact ⟨by rw [ihg]; simp [scanStep, typeOccurrences],
        by rw [ihs]; simp [scanStep, typeOccurrences]⟩

/-- The canonical node map after the scan: the first occurrence wins. -/
theorem scanDefs_nodeMap_lookup (defs : List Definition) :
    ∀ (acc : ScanAcc) (name : String),
      (scanDefs acc defs).nodeMap.lookup name =
        (acc.nodeMap.lookup name).or (typeOccurrences name defs).head? := by
  induction defs with
  | nil => intro acc name; simp [scanDefs, typeOccurrences]
  | cons d rest ih =>
    intro acc name
    cases d with
    | typeD td =>
      show (scanDefs (scanStep acc (.typeD td)) rest).nodeMap.lookup name = _
      rw [ih]
      by_cases h : td.name.value = name
      · simp only [typeOccurrences, h, if_pos rfl, List.head?_cons]
        cases hl : acc.nodeMap.lookup name with
        | some v =>
          have : (scanStep acc (.typeD td)).nodeMap = acc.nodeMap := by
            simp only [scanStep, h, hl]
            rfl
          rw [this, hl]
          rfl
        | none =>
          have : (scanStep acc (.typeD td)).nodeMap = acc.nodeMap ++ [(name, td)] := by
            simp only [scanStep, h, hl]
            rfl
          rw [this, List.lookup_append, hl]
          simp [List.lookup]

      · have hb : (name == td.name.value) = false := beq_eq_false_iff_ne.mpr (Ne.symm h)
        have heq : (scanStep acc (.typeD td)).nodeMap.lookup name = acc.nodeMap.lookup name := by
          simp only [scanStep]
          split
          · rfl
          · rw [List.lookup_append]
            simp [List.lookup, hb]
        rw [heq]
        simp [typeOccurrences, h]
    | schemaD sd =>
      show (scanDefs (scanStep acc (.schemaD sd)) rest).nodeMap.lookup name = _
      rw [ih]
      have : (scanStep acc (.schemaD sd)).nodeMap = acc.nodeMap := by
        simp only [scanStep]
        cases acc.schemaDef <;> rfl
      rw [this]
      simp [typeOccurrences]
    | directiveD dd =>
      show (scanDefs (scanStep acc (.directiveD dd)) rest).nodeMap.lookup name = _
      rw [ih]
      simp [scanStep, typeOccurrences]
    | otherD =>
      show (scanDefs (scanStep acc .otherD) rest).nodeMap.lookup name = _
      rw [ih]
      simp [scanStep, typeOccurrences]

/-- The keys of the all-references registry stay duplicate-free. -/
theorem scanDefs_nodeMapAll_nodup (defs : List Definition) :
    ∀ acc : ScanAcc, (acc.nodeMapAll.map Prod.fst).Nodup →
      ((scanDefs acc defs).nodeMapAll.map Prod.fst).Nodup := by
  induction defs with
  | nil => intro acc h; exact h
  | cons d rest ih =>
    intro acc h
    cases d with
    | typeD td =>
      refine ih (scanStep acc (.typeD td)) ?_
      rw [scanStep_nodeMapAll_typeD]
      exact nodup_keys_updAppend _ _ _ h
    | schemaD sd =>
      refine ih (scanStep acc (.schemaD sd)) ?_
      have : (scanStep acc (.schemaD sd)).nodeMapAll = acc.nodeMapAll := by
        simp only [scanStep]
        cases acc.schemaDef <;> rfl
      rw [this]
      exact h
    | directiveD dd => exact ih (scanStep acc (.directiveD dd)) h
    | otherD => exact ih (scanStep acc .otherD) h

/-- Among entries without the looked-up key, no duplicate-name diagnostic
for that name arises. -/
theorem dupNameErrors_filter_not_mem (all : List (String × List TypeDef)) (name : String)
    (h : name ∉ all.map Prod.fst) :
    (dupNameErrors all).filter (fun e => e.message = GQLMsg.duplicateTypeName name) = [] := by
  apply List.filter_eq_nil_iff.mpr
  intro e he
  obtain ⟨nm, l, hmem, hval⟩ := mem_dupNameErrors all e he
  have : nm ≠ name := by
    intro hh
    exact h (hh ▸ List.mem_map.mpr ⟨(nm, l), hmem, rfl⟩)
  simp [hval, newGQLError, this]

/-- With duplicate-free keys, the duplicate-name diagnostics contain exactly
one entry for a name that occurs more than once. -/
theorem dupNameErrors_filter_eq (all : List (String × List TypeDef)) (name : String)
    (l : List TypeDef) (hnodup : (all.map Prod.fst).Nodup) (hl : all.lookup name = some l)
    (hlen : 1 < l.length) :
    (dupNameErrors all).filter (fun e => e.message = GQLMsg.duplicateTypeName name) =
      [newGQLError (.duplicateTypeName name) (some (l.map (fun td => td.name.id))) .error] := by
  induction all with
  | nil => cases hl
  | cons p rest ih =>
    by_cases h : p.1 = name
    · have hb : (name == p.1) = true := beq_iff_eq.mpr h.symm
      have hpl : p.2 = l := by
        have : List.lookup name (p :: rest) = some p.2 := by
          simp [List.lookup, hb]
        rw [this] at hl
        exact Option.some.inj hl
      have hrest : name ∉ rest.map Prod.fst := by
        have hh := hnodup
        rw [List.map_cons, List.nodup_cons] at hh
        exact h ▸ hh.1
      have hfp : dupNameErrors (p :: rest) =
          newGQLError (.duplicateTypeName p.1) (some (p.2.map (fun td => td.name.id))) .error ::
            dupNameErrors rest := by
        simp only [dupNameErrors, List.filter_cons]
        rw [if_pos (by rw [hpl]; exact decide_eq_true hlen)]
        rfl
      rw [hfp, List.filter_cons]
      rw [if_pos (by simp [newGQLError, h])]
      rw [dupNameErrors_filter_not_mem rest name hrest]
      simp [newGQLError, h, hpl]
    · have hb : (name == p.1) = false := beq_eq_false_iff_ne.mpr (Ne.symm h)
      have hl' : rest.lookup name = some l := by
        simpa [List.lookup, hb] using hl
      have hnodup' : (rest.map Prod.fst).Nodup := by
        rw [List.map_cons, List.nodup_cons] at hnodup
        exact hnodup.2
      have ihr := ih hnodup' hl'
      by_cases hp : 1 < p.2.length
      · have hfp : dupNameErrors (p :: rest) =
            newGQLError (.duplicateTypeName p.1) (some (p.2.map (fun td => td.name.id))) .error ::
              dupNameErrors rest := by
          simp only [dupNameErrors, List.filter_cons]
          rw [if_pos (decide_eq_true hp)]
          rfl
        rw [hfp, List.filter_cons]
        rw [if_neg (by simp [newGQLError, h])]
        exact ihr
      · have hfp : dupNameErrors (p :: rest) = dupNameErrors rest := by
          simp only [dupNameErrors, List.filter_cons]
          rw [if_neg (by simpa using hp)]
        rw [hfp]
        exact ihr

/-- C5: a type name declared by two or more top-level definitions gets
exactly one duplicate-name diagnostic, citing the name nodes of every
occurrence in document order, and the canonical node map binds the name to
its first occurrence (the definition every resolution uses). -/
theorem c5_duplicate_names_reported_once (ast : Document) (name : String) (l : List TypeDef)
    (h1 : typeOccurrences name ast.definitions = l) (h2 : 2 ≤ l.length) :
    (phaseA ast).errors.filter (fun e => e.message = GQLMsg.duplicateTypeName name) =
      [newGQLError (.duplicateTypeName name) (some (l.map (fun td => td.name.id))) .error] ∧
    (phaseA ast).nodeMap.lookup name = l.head? := by
  have hall : (scanDefs ScanAcc.empty ast.definitions).nodeMapAll.lookup name = some l := by
    obtain ⟨hg, hs⟩ := scanDefs_nodeMapAll_lookup ast.definitions ScanAcc.empty name
    rw [h1] at hg hs
    have hgetd : ((scanDefs ScanAcc.empty ast.definitions).nodeMapAll.lookup name).getD [] = l := by
      rw [hg]; rfl
    have hsome : ((scanDefs ScanAcc.empty ast.definitions).nodeMapAll.lookup name).isSome = true := by
      rw [hs]
      have : l.isEmpty = false := by
        cases l
        · simp at h2
        · rfl
      simp [ScanAcc.empty, List.lookup, this]
    cases hcase : (scanDefs ScanAcc.empty ast.definitions).nodeMapAll.lookup name with
    | none => rw [hcase] at hsome; cases hsome
    | some l' =>
      rw [hcase] at hgetd
      simp only [Option.getD_some] at hgetd
      rw [hgetd]
  have hnodup : (((scanDefs ScanAcc.empty ast.definitions).nodeMapAll).map Prod.fst).Nodup :=
    scanDefs_nodeMapAll_nodup ast.definitions ScanAcc.empty (by simp [ScanAcc.empty])
  constructor
  · show ((scanDefs ScanAcc.empty ast.definitions).errors ++
      dupNameErrors (scanDefs ScanAcc.empty ast.definitions).nodeMapAll).filter _ = _
    rw [List.filter_append]
    have h1s : ((scanDefs ScanAcc.empty ast.definitions).errors).filter
        (fun e => e.message = GQLMsg.duplicateTypeName name) = [] := by
      apply List.filter_eq_nil_iff.mpr
      intro e he
      rw [scanDefs_errors ast.definitions ScanAcc.empty] at he
      have he' : e ∈ schemaPairErrs none (schemaBlocks ast.definitions) := by
        simpa [ScanAcc.empty] using he
      have := mem_schemaPairErrs (schemaBlocks ast.definitions) none e he'
      simp [this]
    rw [h1s, List.nil_append]
    exact dupNameErrors_filter_eq _ name l hnodup hall (by omega)
  · show (scanDefs ScanAcc.empty ast.definitions).nodeMap.lookup name = l.head?
    rw [scanDefs_nodeMap_lookup ast.definitions ScanAcc.empty name, h1]
    rfl

/-- Witness for C5: `docDupNames` declares `A` twice. -/
theorem c5_duplicate_names_reported_once_witness :
    typeOccurrences "A" docDupNames.definitions =
      [.scalarT ⟨"A", 0⟩ none,
       .objectT ⟨"A", 3⟩ [] [⟨"x", .named ⟨"String", 4⟩, [], [], none⟩] none] ∧
    (phaseA docDupNames).errors.filter (fun e => e.message = GQLMsg.duplicateTypeName "A") =
      [newGQLError (.duplicateTypeName "A") (some [0, 3]) .error] ∧
    (phaseA docDupNames).nodeMap.lookup "A" = some (.scalarT ⟨"A", 0⟩ none) ∧
    ((buildASTSchema 10 docDupNames).toOption.map (fun r =>
        r.errors.filter (fun e => e.message = GQLMsg.duplicateTypeName "A"))) =
      some [newGQLError (.duplicateTypeName "A") (some [0, 3]) .error] := by
  have h := c5_duplicate_names_reported_once docDupNames "A"
    [.scalarT ⟨"A", 0⟩ none,
     .objectT ⟨"A", 3⟩ [] [⟨"x", .named ⟨"String", 4⟩, [], [], none⟩] none] rfl (by decide)
  exact ⟨rfl, h.1, h.2, rfl⟩

/-! ### C4 -/

theorem getDirectiveF_name (resolve : Resolve) (dd : DirectiveDefNode) (st : BState)
    (d : GQLDirective) (st' : BState) (h : getDirectiveF resolve dd st = .ok (d, st')) :
    d.name = dd.name.value := by
  unfold getDirectiveF at h
  cases hm : makeInputValuesWith resolve dd.arguments st with
  | error e => rw [hm] at h; cases h
  | ok p =>
    rw [hm] at h
    simp only [Except.ok.injEq, Prod.mk.injEq] at h
    rw [← h.1]

/-- Building the explicit directives preserves the declared names, in
order. -/
theorem buildDirectivesF_names (resolve : Resolve) (dds : List DirectiveDefNode) :
    ∀ (st : BState) (ds : List GQLDirective) (st' : BState),
      buildDirectivesF resolve dds st = .ok (ds, st') →
        ds.map GQLDirective.name = dds.map (fun dd => dd.name.value) := by
  induction dds with
  | nil =>
    intro st ds st' h
    simp only [buildDirectivesF, Except.ok.injEq, Prod.mk.injEq] at h
    rw [← h.1]
    rfl
  | cons dd rest ih =>
    intro st ds st' h
    simp only [buildDirectivesF] at h
    cases hg : getDirectiveF resolve dd st with
    | error e => rw [hg] at h; cases h
    | ok p =>
      obtain ⟨d0, st0⟩ := p
      rw [hg] at h
      have h2 : (match buildDirectivesF resolve rest st0 with
          | .error e => (.error e : Except BFail (List GQLDirective × BState))
          | .ok (ds1, st2) => .ok (d0 :: ds1, st2)) = .ok (ds, st') := h
      cases hr : buildDirectivesF resolve rest st0 with
      | error e => rw [hr] at h2; cases h2
      | ok q =>
        obtain ⟨ds1, st2⟩ := q
        rw [hr] at h2
        simp only [Except.ok.injEq, Prod.mk.injEq] at h2
        rw [← h2.1, List.map_cons, List.map_cons,
          getDirectiveF_name resolve dd st d0 st0 hg, ih st0 ds1 st2 hr]

/-- Appending a directive whose name is not "deprecated" changes neither
the deprecated-named entries nor their presence. -/
theorem dirs_append_nondep (l : List GQLDirective) (b : GQLDirective)
    (hb : b.name ≠ "deprecated") :
    (l ++ [b]).filter (fun d => d.name = "deprecated") =
      l.filter (fun d => d.name = "deprecated") ∧
    (l ++ [b]).any (fun d => d.name = "deprecated") =
      l.any (fun d => d.name = "deprecated") := by
  constructor
  · rw [List.filter_append]
    have hnil : List.filter (fun d => decide (d.name = "deprecated")) [b] = [] := by
      simp [List.filter_cons, decide_eq_false hb]
    rw [hnil, List.append_nil]
  · rw [List.any_append]
    simp [List.any, decide_eq_false hb]

/-- C4 counterexample: a document defining `directive @deprecated(why:
String)` gets its own directive into the schema's directive set (shadowing
the built-in), BUT deprecation-reason lookups still read `reason` with the
BUILT-IN deprecated directive's argument set: the field annotated
`@deprecated(why: "x")` gets the built-in default reason "No longer
supported", while reading `reason` with the document's own argument set
would yield nothing. -/
theorem c4_counterexample_custom_deprecated :
    ((buildASTSchema 10 docCustomDeprecated).toOption.map (fun r =>
        r.schema.directives.map GQLDirective.name)) = some ["deprecated", "skip", "include"] ∧
    getDeprecationReason (some [customDeprecatedUsage]) = some (.str "No longer supported") ∧
    ((buildTypesF 10 ctxCustomDep (phaseA docCustomDeprecated).typeDefs
        ⟨initialTypeMap, []⟩).toOption.bind (fun p =>
      (makeFieldDefMapWith (typeDefNamed 10 ctxCustomDep) fieldsOfQueryCD p.2).toOption.map
        (fun q => (q.1.lookup "f").map FieldInfo.deprecationReason))) =
      some (some (some (.str "No longer supported"))) ∧
    ((buildASTSchema 10 docCustomDeprecated).toOption.bind (fun r =>
      r.schema.directives.head?.map (fun d =>
        (getArgumentValuesM d customDeprecatedUsage).lookup "reason"))) = some none ∧
    some (GValue.str "No longer supported") ≠ (none : Option GValue) := by
  exact ⟨rfl, rfl, rfl, rfl, by decide⟩

/-- C4 amended: an explicit `deprecated` directive definition replaces the
built-in in the schema's directive set (the built-in is not appended and the
deprecated-named entries of the final set are exactly the explicit ones),
but deprecation-reason lookups always read the `reason` argument with the
BUILT-IN deprecated directive's argument definitions, ignoring the
document's own. -/
theorem c4_amended_shadowing_without_reason_lookup (resolve : Resolve)
    (dds : List DirectiveDefNode) (st : BState) (ds : List GQLDirective) (st' : BState)
    (hhas : ∃ dd ∈ dds, dd.name.value = "deprecated")
    (hbuild : buildDirectivesF resolve dds st = .ok (ds, st')) :
    ds.any (fun d => d.name = "deprecated") = true ∧
    (appendBuiltinDirectives ds).filter (fun d => d.name = "deprecated") =
      ds.filter (fun d => d.name = "deprecated") ∧
    (∀ us : List DirectiveUsage, getDeprecationReason (some us) =
      (us.find? (fun dir => dir.name = GraphQLDeprecatedDirective.name)).bind
        (fun u => (getArgumentValuesM GraphQLDeprecatedDirective u).lookup "reason")) := by
  have hnames := buildDirectivesF_names resolve dds st ds st' hbuild
  have hany : ds.any (fun d => d.name = "deprecated") = true := by
    obtain ⟨dd, hmem, hname⟩ := hhas
    have : "deprecated" ∈ ds.map GQLDirective.name := by
      rw [hnames]
      exact List.mem_map.mpr ⟨dd, hmem, hname⟩
    obtain ⟨d, hd, hdn⟩ := List.mem_map.mp this
    exact List.any_eq_true.mpr ⟨d, hd, by simp [hdn]⟩
  refine ⟨hany, ?_, ?_⟩
  · have hskipne : GraphQLSkipDirective.name ≠ "deprecated" := by decide
    have hinclne : GraphQLIncludeDirective.name ≠ "deprecated" := by decide
    simp only [appendBuiltinDirectives]
    by_cases h1 : ds.any (fun d => d.name = "skip") = true
    · rw [if_pos h1]
      by_cases h2 : ds.any (fun d => d.name = "include") = true
      · rw [if_pos h2, if_pos hany]
      · rw [if_neg h2]
        have k := dirs_append_nondep ds GraphQLIncludeDirective hinclne
        rw [if_pos (by rw [k.2]; exact hany), k.1]
    · rw [if_neg h1]
      have ks := dirs_append_nondep ds GraphQLSkipDirective hskipne
      by_cases h2 : (ds ++ [GraphQLSkipDirective]).any (fun d => d.name = "include") = true
      · rw [if_pos h2, if_pos (by rw [ks.2]; exact hany), ks.1]
      · rw [if_neg h2]
        have ki := dirs_append_nondep (ds ++ [GraphQLSkipDirective]) GraphQLIncludeDirective
          hinclne
        rw [if_pos (by rw [ki.2, ks.2]; exact hany), ki.1, ks.1]
  · intro us
    cases h : us.find? (fun dir => dir.name = GraphQLDeprecatedDirective.name) <;>
      simp [getDeprecationReason, h]

/-- Witness for C4 amended, at the directive definitions of
`docCustomDeprecated`. -/
theorem c4_amended_shadowing_without_reason_lookup_witness :
    (buildDirectivesF (typeDefNamed 5 ⟨[]⟩) [customDepDefNode] ⟨initialTypeMap, []⟩).isOk = true ∧
    (∀ ds : List GQLDirective, ∀ st' : BState,
      buildDirectivesF (typeDefNamed 5 ⟨[]⟩) [customDepDefNode] ⟨initialTypeMap, []⟩ =
        .ok (ds, st') →
      ds.any (fun d => d.name = "deprecated") = true ∧
      (appendBuiltinDirectives ds).filter (fun d => d.name = "deprecated") =
        ds.filter (fun d => d.name = "deprecated")) := by
  refine ⟨rfl, fun ds st' h => ?_⟩
  have hc := c4_amended_shadowing_without_reason_lookup (typeDefNamed 5 ⟨[]⟩)
    [customDepDefNode] ⟨initialTypeMap, []⟩ ds st'
    ⟨customDepDefNode, List.mem_singleton.mpr rfl, rfl⟩ h
  exact ⟨hc.1, hc.2.1⟩

end GQL
